import Mathlib

/-!
Verification of the CRUD persistence layer and validation contract of
`app.py` (a Streamlit + SQLite user-record manager).

The SQLite table
  `users(id INTEGER PRIMARY KEY AUTOINCREMENT, name, email, phone, age, created_at)`
is embedded as a list of records together with the AUTOINCREMENT counter
(`nextId`), which SQLite keeps in `sqlite_sequence` and which never
decreases, so deleted ids are never handed out again.

Each store operation in `app.py` wraps its single SQL statement in
`try/except` and reports failure without any partial effect; this is
modelled by an explicit `ok : Bool` argument standing for "the underlying
database call did not raise".  Timestamps are abstracted as natural
numbers; `created_at` receives the current time passed to the insert.
-/

/-- A row of the `users` table. -/
structure Record where
  id : Nat
  name : String
  email : String
  phone : String
  age : Int
  created_at : Nat
deriving Repr, DecidableEq

/-- The persistent state: the rows of `users` in insertion (rowid) order,
together with the AUTOINCREMENT counter for the next id. -/
structure Store where
  rows : List Record
  nextId : Nat
deriving Repr, DecidableEq

/-- `init_database` (app.py:14): creates the empty `users` table;
AUTOINCREMENT ids start at 1. -/
def init_database : Store := { rows := [], nextId := 1 }

/-- `insert_record` (app.py:50): `INSERT INTO users (name, email, phone, age)
VALUES (?,?,?,?)`.  The store assigns the next AUTOINCREMENT id and the
current timestamp; returns `True` on success, `False` (store unchanged)
when the call raises. -/
def insert_record (s : Store) (name email phone : String) (age : Int)
    (now : Nat) (ok : Bool) : Bool × Store :=
  if ok then
    (true, { rows := s.rows ++ [{ id := s.nextId, name := name, email := email,
                                  phone := phone, age := age, created_at := now }],
             nextId := s.nextId + 1 })
  else
    (false, s)

/-- `view_all_records` (app.py:77): `SELECT id, name, email, phone, age,
created_at FROM users ORDER BY id DESC`.  On an exception it returns an
empty DataFrame, i.e. the empty list. -/
def view_all_records (s : Store) (ok : Bool) : List Record :=
  if ok then s.rows.mergeSort (fun a b => b.id ≤ a.id) else []

/-- `view_record_by_id` (app.py:94): `SELECT name, email, phone, age FROM
users WHERE id = ?` followed by `fetchone()`: the first matching row's four
mutable fields, `None` when no row matches or the call raises. -/
def view_record_by_id (s : Store) (record_id : Nat) (ok : Bool) :
    Option (String × String × String × Int) :=
  if ok then
    (s.rows.find? (fun r => r.id = record_id)).map
      (fun r => (r.name, r.email, r.phone, r.age))
  else
    none

/-- `update_record` (app.py:117): `UPDATE users SET name=?, email=?,
phone=?, age=? WHERE id = ?`.  Rows with a different id are untouched; the
matching row keeps its `id` and `created_at`.  Returns `True` even when no
row matches. -/
def update_record (s : Store) (record_id : Nat) (name email phone : String)
    (age : Int) (ok : Bool) : Bool × Store :=
  if ok then
    (true, { s with rows := s.rows.map (fun r =>
        if r.id = record_id then
          { r with name := name, email := email, phone := phone, age := age }
        else r) })
  else
    (false, s)

/-- `delete_record` (app.py:145): `DELETE FROM users WHERE id = ?`.
Returns `True` even when no row matches; the AUTOINCREMENT counter is not
reset. -/
def delete_record (s : Store) (record_id : Nat) (ok : Bool) : Bool × Store :=
  if ok then
    (true, { s with rows := s.rows.filter (fun r => !(r.id = record_id)) })
  else
    (false, s)

/-- Library behaviour of `st.number_input(min_value, max_value, value)`:
the widget only ever yields a value inside `[min_value, max_value]`;
modelled as clamping the entered value into range. -/
def number_input (minv maxv value : Int) : Int := max minv (min maxv value)

/-- Python's `not s.strip()`: true exactly when the string contains only
whitespace. -/
def isBlank (s : String) : Bool := s.data.all (fun c => c.isWhitespace)

/-- Python's `"@" in email`: the string has at least one `@` character. -/
def hasAt (s : String) : Bool := s.data.contains '@'

/-- The add-form validation chain (app.py:280-289): name, email and phone
must be non-blank after stripping, the email must contain `@`, and the age
must be at least 1. -/
def add_form_valid (name email phone : String) (age : Int) : Bool :=
  !(isBlank name) && !(isBlank email) && !(isBlank phone) &&
    hasAt email && !(age < 1)

/-- The update-form validation chain (app.py:368-377), identical checks on
the edited values. -/
def update_form_valid (name email phone : String) (age : Int) : Bool :=
  !(isBlank name) && !(isBlank email) && !(isBlank phone) &&
    hasAt email && !(age < 1)

/-- A submission of the Add form (app.py:278-295): the age comes from
`st.number_input(min_value=1, max_value=120)`; if validation passes the
record is inserted, otherwise the store is not invoked. -/
def add_submit (s : Store) (name email phone : String) (ageRaw : Int)
    (now : Nat) (ok : Bool) : Store :=
  let age := number_input 1 120 ageRaw
  if add_form_valid name email phone age then
    (insert_record s name email phone age now ok).2
  else s

/-- A submission of the Update form (app.py:366-383): the age comes from
`st.number_input(min_value=1, max_value=120)`; if validation passes the
selected record is updated, otherwise the store is not invoked. -/
def update_submit (s : Store) (selected_id : Nat) (name email phone : String)
    (ageRaw : Int) (ok : Bool) : Store :=
  let age := number_input 1 120 ageRaw
  if update_form_valid name email phone age then
    (update_record s selected_id name email phone age ok).2
  else s

/-- The data-model constraints of spec §3 on a single persisted record. -/
def RecordValid (r : Record) : Prop :=
  r.name ≠ "" ∧ hasAt r.email = true ∧ r.phone ≠ "" ∧
    1 ≤ r.age ∧ r.age ≤ 120

/-- Every persisted record satisfies the data-model constraints. -/
def DataInv (s : Store) : Prop := ∀ r ∈ s.rows, RecordValid r

/-- Structural invariant of the embedded store: rows are in strictly
increasing id order (SQLite rowid order) and every id is below the
AUTOINCREMENT counter. -/
def StoreInv (s : Store) : Prop :=
  s.rows.Chain' (fun a b => a.id < b.id) ∧ ∀ r ∈ s.rows, r.id < s.nextId

/-- One user-visible store operation, with its `ok` flag recording whether
the underlying database call succeeds. -/
inductive Op where
  | ins (name email phone : String) (age : Int) (now : Nat) (ok : Bool)
  | upd (record_id : Nat) (name email phone : String) (age : Int) (ok : Bool)
  | del (record_id : Nat) (ok : Bool)

/-- Apply one operation to the store (keeping only the state). -/
def applyOp (s : Store) : Op → Store
  | .ins n e p a t ok => (insert_record s n e p a t ok).2
  | .upd i n e p a ok => (update_record s i n e p a ok).2
  | .del i ok => (delete_record s i ok).2

/-- Run a sequence of operations. -/
def runOps (s : Store) : List Op → Store
  | [] => s
  | op :: ops => runOps (applyOp s op) ops

/-- The ids handed out by the store during a run: each successful insert
assigns the current AUTOINCREMENT counter. -/
def assignedDuring (s : Store) : List Op → List Nat
  | [] => []
  | op :: ops =>
    match op with
    | .ins _ _ _ _ _ true => s.nextId :: assignedDuring (applyOp s op) ops
    | _ => assignedDuring (applyOp s op) ops


/-! ### Helper lemmas -/

theorem isBlank_false_ne_empty {s : String} (h : isBlank s = false) : s ≠ "" := by
  intro he
  subst he
  exact absurd h (by decide)

theorem updatedRow_id (i : Nat) (n e p : String) (a : Int) (r : Record) :
    (if r.id = i then
      { r with name := n, email := e, phone := p, age := a } else r).id = r.id := by
  by_cases h : r.id = i <;> simp [h]

theorem ids_nodup_of_inv {s : Store} (h : StoreInv s) :
    (s.rows.map Record.id).Nodup := by
  haveI : IsTrans Record (fun a b => a.id < b.id) := ⟨fun _ _ _ => Nat.lt_trans⟩
  have hp : s.rows.Pairwise (fun a b => a.id < b.id) :=
    List.chain'_iff_pairwise.mp h.1
  exact (List.pairwise_map.mpr (hp.imp fun hab => Nat.ne_of_lt hab))

theorem find_eq_some_of_nodup :
    ∀ {rows : List Record} {r : Record} {i : Nat},
      (rows.map Record.id).Nodup → r ∈ rows → r.id = i →
      rows.find? (fun x => x.id = i) = some r := by
  intro rows
  induction rows with
  | nil => intro r i _ hr _; cases hr
  | cons a tl ih =>
    intro r i hnd hr hid
    rw [List.map_cons, List.nodup_cons] at hnd
    rcases List.mem_cons.mp hr with rfl | hmem
    · exact List.find?_cons_of_pos _ (by simpa using hid)
    · have hne : ¬ (a.id = i) := by
        intro hai
        exact hnd.1 (hai ▸ List.mem_map.mpr ⟨r, hmem, hid⟩)
      rw [List.find?_cons_of_neg _ (by simpa using hne)]
      exact ih hnd.2 hmem hid

theorem update_record_ids (s : Store) (i : Nat) (n e p : String) (a : Int)
    (ok : Bool) :
    ((update_record s i n e p a ok).2.rows.map Record.id) =
      s.rows.map Record.id := by
  cases ok
  · rfl
  · show ((s.rows.map _).map Record.id) = _
    rw [List.map_map]
    exact List.map_congr_left fun r _ => updatedRow_id i n e p a r

theorem storeInv_insert {s : Store} (h : StoreInv s) (n e p : String)
    (a : Int) (t : Nat) (ok : Bool) :
    StoreInv (insert_record s n e p a t ok).2 := by
  cases ok
  · exact h
  · obtain ⟨hc, hb⟩ := h
    simp only [insert_record, if_true]
    constructor
    · rw [List.chain'_append]
      refine ⟨hc, List.chain'_singleton _, ?_⟩
      intro x hx y hy
      have hx' : x ∈ s.rows := List.mem_of_mem_getLast? hx
      have hy' : { id := s.nextId, name := n, email := e, phone := p,
                   age := a, created_at := t } = y := by
        simpa using hy
      subst hy'
      exact hb x hx'
    · intro r hr
      rcases List.mem_append.mp hr with h1 | h2
      · exact Nat.lt_trans (hb r h1) (Nat.lt_succ_self _)
      · have : r = { id := s.nextId, name := n, email := e, phone := p,
                     age := a, created_at := t } := by simpa using h2
        subst this
        exact Nat.lt_succ_self _

theorem storeInv_update {s : Store} (h : StoreInv s) (i : Nat)
    (n e p : String) (a : Int) (ok : Bool) :
    StoreInv (update_record s i n e p a ok).2 := by
  cases ok
  · exact h
  · obtain ⟨hc, hb⟩ := h
    simp only [update_record, if_true]
    constructor
    · rw [List.chain'_map]
      exact hc.imp fun x y hxy => by
        rw [updatedRow_id i n e p a, updatedRow_id i n e p a]; exact hxy
    · intro r hr
      obtain ⟨r₀, hr₀, rfl⟩ := List.mem_map.mp hr
      rw [updatedRow_id]
      exact hb r₀ hr₀

theorem storeInv_delete {s : Store} (h : StoreInv s) (i : Nat) (ok : Bool) :
    StoreInv (delete_record s i ok).2 := by
  cases ok
  · exact h
  · obtain ⟨hc, hb⟩ := h
    haveI : IsTrans Record (fun a b => a.id < b.id) := ⟨fun _ _ _ => Nat.lt_trans⟩
    constructor
    · exact List.chain'_iff_pairwise.mpr
        ((List.chain'_iff_pairwise.mp hc).sublist (List.filter_sublist _))
    · intro r hr
      exact hb r (List.mem_of_mem_filter hr)

theorem storeInv_applyOp {s : Store} (h : StoreInv s) (op : Op) :
    StoreInv (applyOp s op) := by
  cases op with
  | ins n e p a t ok => exact storeInv_insert h n e p a t ok
  | upd i n e p a ok => exact storeInv_update h i n e p a ok
  | del i ok => exact storeInv_delete h i ok

theorem nextId_applyOp_le (s : Store) (op : Op) :
    s.nextId ≤ (applyOp s op).nextId := by
  cases op with
  | ins n e p a t ok =>
    cases ok
    · exact Nat.le_refl _
    · exact Nat.le_succ _
  | upd i n e p a ok => cases ok <;> exact Nat.le_refl _
  | del i ok => cases ok <;> exact Nat.le_refl _

theorem storeInv_runOps {s : Store} (h : StoreInv s) :
    ∀ ops : List Op, StoreInv (runOps s ops)
  | [] => h
  | op :: ops => storeInv_runOps (storeInv_applyOp h op) ops

theorem assignedDuring_ge :
    ∀ (ops : List Op) (s : Store) (a : Nat),
      a ∈ assignedDuring s ops → s.nextId ≤ a := by
  intro ops
  induction ops with
  | nil => intro s a ha; cases ha
  | cons op tl ih =>
    intro s a ha
    cases op with
    | ins n e p ag t ok =>
      cases ok
      · exact Nat.le_trans (nextId_applyOp_le s _) (ih _ a ha)
      · rcases List.mem_cons.mp ha with rfl | hmem
        · exact Nat.le_refl _
        · exact Nat.le_trans (nextId_applyOp_le s (.ins n e p ag t true))
            (ih _ a hmem)
    | upd i n e p ag ok =>
      exact Nat.le_trans (nextId_applyOp_le s _) (ih _ a ha)
    | del i ok =>
      exact Nat.le_trans (nextId_applyOp_le s _) (ih _ a ha)

theorem assignedDuring_nodup :
    ∀ (ops : List Op) (s : Store), (assignedDuring s ops).Nodup := by
  intro ops
  induction ops with
  | nil => intro s; exact List.nodup_nil
  | cons op tl ih =>
    intro s
    cases op with
    | ins n e p a t ok =>
      cases ok
      · exact ih _
      · refine List.nodup_cons.mpr ⟨?_, ih _⟩
        intro hmem
        have h1 : s.nextId + 1 ≤ s.nextId :=
          assignedDuring_ge tl (applyOp s (.ins n e p a t true)) _ hmem
        omega
    | upd i n e p a ok => exact ih _
    | del i ok => exact ih _

theorem insert_record_true (s : Store) (n e p : String) (a : Int) (t : Nat) :
    insert_record s n e p a t true =
      (true, { rows := s.rows ++ [{ id := s.nextId, name := n, email := e,
                                    phone := p, age := a, created_at := t }],
               nextId := s.nextId + 1 }) := rfl

theorem update_record_true (s : Store) (i : Nat) (n e p : String) (a : Int) :
    update_record s i n e p a true =
      (true, { s with rows := s.rows.map (fun r =>
          if r.id = i then
            { r with name := n, email := e, phone := p, age := a }
          else r) }) := rfl

theorem delete_record_true (s : Store) (i : Nat) :
    delete_record s i true =
      (true, { s with rows := s.rows.filter (fun r => !(r.id = i)) }) := rfl

theorem view_all_records_true (s : Store) :
    view_all_records s true =
      s.rows.mergeSort (fun a b => b.id ≤ a.id) := rfl

theorem view_record_by_id_true (s : Store) (i : Nat) :
    view_record_by_id s i true =
      (s.rows.find? (fun r => r.id = i)).map
        (fun r => (r.name, r.email, r.phone, r.age)) := rfl

theorem view_all_perm (s : Store) : (view_all_records s true).Perm s.rows := by
  rw [view_all_records_true]
  exact List.mergeSort_perm _ _

theorem view_all_sorted (s : Store) :
    (view_all_records s true).Pairwise (fun x y => y.id ≤ x.id) := by
  rw [view_all_records_true]
  have h := @List.sorted_mergeSort Record
      (fun a b : Record => decide (b.id ≤ a.id))
      (fun a b c h1 h2 => by
        simp only [decide_eq_true_eq] at h1 h2 ⊢; omega)
      (fun a b => by
        simp only [Bool.or_eq_true, decide_eq_true_eq]; omega)
      s.rows
  exact h.imp fun hxy => by simpa using hxy

/-! ### Claim theorems -/

/-- C1: For every valid input (non-empty name, email containing `@`,
non-empty phone, age in [1,120]) and well-formed store, `insert_record`
followed by `view_all_records` yields a sequence containing a record whose
name, email, phone and age equal the input, whose id differs from every id
already in the store, and whose `created_at` is no earlier than the time
of the insert call. -/
theorem C1_insert_then_listAll (s : Store) (name email phone : String)
    (age : Int) (now : Nat) (hinv : StoreInv s)
    (hname : name ≠ "") (hemail : hasAt email = true) (hphone : phone ≠ "")
    (hage : 1 ≤ age ∧ age ≤ 120) :
    (insert_record s name email phone age now true).1 = true ∧
    ∃ r ∈ view_all_records
        (insert_record s name email phone age now true).2 true,
      r.name = name ∧ r.email = email ∧ r.phone = phone ∧ r.age = age ∧
        now ≤ r.created_at ∧ ∀ r₀ ∈ s.rows, r₀.id ≠ r.id := by
  refine ⟨rfl, ?_⟩
  refine ⟨{ id := s.nextId, name := name, email := email, phone := phone,
            age := age, created_at := now }, ?_, rfl, rfl, rfl, rfl,
          Nat.le_refl _, ?_⟩
  · rw [insert_record_true, view_all_records_true]
    exact List.mem_mergeSort.mpr
      (List.mem_append_right _ (List.mem_singleton_self _))
  · intro r₀ h₀
    exact Nat.ne_of_lt (hinv.2 r₀ h₀)

/-- C3: For every id present in a well-formed store and all field values,
`update_record` followed by `view_record_by_id` returns exactly the updated
name, email, phone and age, while the affected row keeps its id and its
`created_at`. -/
theorem C3_update_then_get (s : Store) (i : Nat) (n e p : String) (a : Int)
    (r : Record) (hinv : StoreInv s) (hr : r ∈ s.rows) (hid : r.id = i) :
    view_record_by_id (update_record s i n e p a true).2 i true =
      some (n, e, p, a) ∧
    ∃ r' ∈ (update_record s i n e p a true).2.rows,
      r'.id = r.id ∧ r'.created_at = r.created_at ∧
        r'.name = n ∧ r'.email = e ∧ r'.phone = p ∧ r'.age = a := by
  have hnd' : ((update_record s i n e p a true).2.rows.map Record.id).Nodup := by
    rw [update_record_ids]
    exact ids_nodup_of_inv hinv
  have hmem : { r with name := n, email := e, phone := p, age := a }
      ∈ (update_record s i n e p a true).2.rows := by
    rw [update_record_true]
    exact List.mem_map.mpr ⟨r, hr, by rw [if_pos hid]⟩
  constructor
  · rw [view_record_by_id_true, find_eq_some_of_nodup hnd' hmem hid]
    rfl
  · exact ⟨_, hmem, rfl, rfl, rfl, rfl, rfl, rfl⟩

/-- C4: For every id not present in the store, `update_record` and
`delete_record` both report success (`True`) and leave the store
completely unchanged. -/
theorem C4_update_delete_absent (s : Store) (i : Nat) (n e p : String)
    (a : Int) (habs : ∀ r ∈ s.rows, r.id ≠ i) :
    update_record s i n e p a true = (true, s) ∧
    delete_record s i true = (true, s) := by
  have hrows : s.rows.map (fun r =>
      if r.id = i then { r with name := n, email := e, phone := p, age := a }
      else r) = s.rows := by
    conv_rhs => rw [← List.map_id s.rows]
    exact List.map_congr_left fun r hr => by simp [habs r hr]
  have hfil : s.rows.filter (fun r => !(r.id = i)) = s.rows :=
    List.filter_eq_self.mpr (fun r hr => by simp [habs r hr])
  constructor
  · rw [update_record_true, hrows]
  · rw [delete_record_true, hfil]

/-- C5: `view_all_records` returns all rows of a well-formed store ordered
by id descending (strictly, so any record with larger id appears before
any record with smaller id), and the empty store yields the empty
sequence. -/
theorem C5_listAll_ordering (s : Store) (hinv : StoreInv s) :
    (view_all_records s true).Pairwise (fun x y => y.id < x.id) ∧
    (view_all_records s true).Perm s.rows ∧
    (s.rows = [] → view_all_records s true = []) := by
  have hnd : ((view_all_records s true).map Record.id).Nodup :=
    (List.Perm.nodup_iff ((view_all_perm s).map Record.id)).mpr
      (ids_nodup_of_inv hinv)
  have hne : (view_all_records s true).Pairwise (fun x y => x.id ≠ y.id) :=
    List.pairwise_map.mp hnd
  refine ⟨?_, view_all_perm s, ?_⟩
  · exact ((view_all_sorted s).and hne).imp fun h => by
      obtain ⟨h1, h2⟩ := h
      omega
  · intro h
    rw [view_all_records_true, h, List.mergeSort_nil]

/-- C6: For every id, `delete_record` followed by `view_record_by_id`
returns the absent indicator (`none`), and a subsequent `view_all_records`
no longer contains a record with that id. -/
theorem C6_delete_then_get (s : Store) (i : Nat) :
    view_record_by_id (delete_record s i true).2 i true = none ∧
    ∀ r ∈ view_all_records (delete_record s i true).2 true, r.id ≠ i := by
  constructor
  · rw [view_record_by_id_true]
    have h : (delete_record s i true).2.rows.find? (fun r => r.id = i) = none := by
      rw [delete_record_true]
      refine List.find?_eq_none.mpr ?_
      intro x hx
      have hp := (List.mem_filter.mp hx).2
      simpa using hp
    rw [h]
    rfl
  · intro r hr
    rw [delete_record_true, view_all_records_true] at hr
    have hr' := List.mem_mergeSort.mp hr
    have hp := (List.mem_filter.mp hr').2
    simpa using hp

/-- C7: In a well-formed store, `view_record_by_id` returns `none` when no
row has the requested id, and returns the matching row's four mutable
fields when one does. -/
theorem C7_getById (s : Store) (i : Nat) (hinv : StoreInv s) :
    ((∀ r ∈ s.rows, r.id ≠ i) → view_record_by_id s i true = none) ∧
    (∀ r ∈ s.rows, r.id = i →
      view_record_by_id s i true = some (r.name, r.email, r.phone, r.age)) := by
  constructor
  · intro habs
    rw [view_record_by_id_true]
    have h : s.rows.find? (fun r => r.id = i) = none :=
      List.find?_eq_none.mpr (fun x hx => by simpa using habs x hx)
    rw [h]
    rfl
  · intro r hr hid
    rw [view_record_by_id_true,
        find_eq_some_of_nodup (ids_nodup_of_inv hinv) hr hid]
    rfl

/-- C9: When the underlying read fails, `view_all_records` neither raises
nor returns a distinct failure value: it returns the empty list, exactly
what it returns for the empty table, so every caller receives a
well-formed (possibly empty) sequence. -/
theorem C9_listAll_failure (s : Store) :
    view_all_records s false = [] ∧
    view_all_records s false = view_all_records init_database true := by
  refine ⟨rfl, ?_⟩
  rw [view_all_records_true]
  rw [show init_database.rows = [] from rfl, List.mergeSort_nil]
  rfl

/-- C2: Starting from a store whose records all satisfy the data-model
constraints, any Add-form submission and any Update-form submission (with
the age coming from the bounded `number_input` widget) leave every
persisted record satisfying those constraints: the presentation layer
rejects violating input before the store is invoked. -/
theorem C2_dataInv_preserved (s : Store) (hinv : DataInv s)
    (name email phone : String) (ageRaw : Int) (now : Nat) (i : Nat)
    (ok : Bool) :
    DataInv (add_submit s name email phone ageRaw now ok) ∧
    DataInv (update_submit s i name email phone ageRaw ok) := by
  have hage1 : 1 ≤ number_input 1 120 ageRaw := le_max_left _ _
  have hage2 : number_input 1 120 ageRaw ≤ 120 := by
    simp only [number_input]
    exact max_le (by norm_num) (min_le_left _ _)
  constructor
  · simp only [add_submit]
    by_cases hv :
        add_form_valid name email phone (number_input 1 120 ageRaw) = true
    · rw [if_pos hv]
      cases ok
      · exact hinv
      · rw [insert_record_true]
        intro r hr
        rcases List.mem_append.mp hr with h1 | h2
        · exact hinv r h1
        · have hre : r = { id := s.nextId, name := name, email := email,
                           phone := phone, age := number_input 1 120 ageRaw,
                           created_at := now } := by
            simpa using h2
          subst hre
          simp only [add_form_valid, Bool.and_eq_true, Bool.not_eq_true',
            decide_eq_false_iff_not] at hv
          obtain ⟨⟨⟨⟨hn, he⟩, hp⟩, hat⟩, _⟩ := hv
          exact ⟨isBlank_false_ne_empty hn, hat,
            isBlank_false_ne_empty hp, hage1, hage2⟩
    · rw [if_neg hv]
      exact hinv
  · simp only [update_submit]
    by_cases hv :
        update_form_valid name email phone (number_input 1 120 ageRaw) = true
    · rw [if_pos hv]
      cases ok
      · exact hinv
      · rw [update_record_true]
        intro r hr
        obtain ⟨r₀, hr₀, rfl⟩ := List.mem_map.mp hr
        by_cases hc : r₀.id = i
        · rw [if_pos hc]
          simp only [update_form_valid, Bool.and_eq_true, Bool.not_eq_true',
            decide_eq_false_iff_not] at hv
          obtain ⟨⟨⟨⟨hn, he⟩, hp⟩, hat⟩, _⟩ := hv
          exact ⟨isBlank_false_ne_empty hn, hat,
            isBlank_false_ne_empty hp, hage1, hage2⟩
        · rw [if_neg hc]
          exact hinv r₀ hr₀
    · rw [if_neg hv]
      exact hinv

/-- C8: Starting from a well-formed store, after any sequence of
operations the persisted ids are pairwise distinct; the ids the store
hands out during the run are pairwise distinct and differ from every id
present at the start (so ids of deleted records are never reused); and
`update_record` never changes any row's id. -/
theorem C8_id_discipline (s : Store) (ops : List Op) (hinv : StoreInv s) :
    ((runOps s ops).rows.map Record.id).Nodup ∧
    (assignedDuring s ops).Nodup ∧
    (∀ a ∈ assignedDuring s ops, ∀ r ∈ s.rows, r.id ≠ a) ∧
    (∀ i n e p a ok,
      (update_record s i n e p a ok).2.rows.map Record.id =
        s.rows.map Record.id) := by
  refine ⟨ids_nodup_of_inv (storeInv_runOps hinv ops),
          assignedDuring_nodup ops s, ?_, ?_⟩
  · intro a ha r hr
    have h1 := assignedDuring_ge ops s a ha
    have h2 := hinv.2 r hr
    omega
  · intro i n e p a ok
    exact update_record_ids s i n e p a ok

/-- Everything of a row except `created_at`: what `view_record_by_id` may
depend on. -/
def publicFields (r : Record) : Nat × String × String × String × Int :=
  (r.id, r.name, r.email, r.phone, r.age)

/-- C10: `view_record_by_id` returns only the four mutable fields
(name, email, phone, age); in particular `created_at` is not observable
through it: two stores whose rows agree on everything except `created_at`
give identical results for every id. -/
theorem C10_no_created_at (rows₁ : List Record) :
    ∀ (rows₂ : List Record) (n₁ n₂ i : Nat),
      rows₁.map publicFields = rows₂.map publicFields →
      view_record_by_id { rows := rows₁, nextId := n₁ } i true =
        view_record_by_id { rows := rows₂, nextId := n₂ } i true := by
  induction rows₁ with
  | nil =>
    intro rows₂ n₁ n₂ i h
    cases rows₂ with
    | nil => rfl
    | cons b tl₂ => simp at h
  | cons a tl ih =>
    intro rows₂ n₁ n₂ i h
    cases rows₂ with
    | nil => simp at h
    | cons b tl₂ =>
      simp only [List.map_cons, List.cons.injEq] at h
      obtain ⟨hab, htl⟩ := h
      simp only [publicFields, Prod.mk.injEq] at hab
      obtain ⟨hid, hnm, hem, hph, hag⟩ := hab
      rw [view_record_by_id_true, view_record_by_id_true]
      by_cases hc : a.id = i
      · rw [show ({ rows := a :: tl, nextId := n₁ } : Store).rows = a :: tl
              from rfl,
            show ({ rows := b :: tl₂, nextId := n₂ } : Store).rows = b :: tl₂
              from rfl,
            List.find?_cons_of_pos _ (by simpa using hc),
            List.find?_cons_of_pos _ (by simpa [← hid] using hc)]
        simp [hnm, hem, hph, hag]
      · rw [show ({ rows := a :: tl, nextId := n₁ } : Store).rows = a :: tl
              from rfl,
            show ({ rows := b :: tl₂, nextId := n₂ } : Store).rows = b :: tl₂
              from rfl,
            List.find?_cons_of_neg _ (by simpa using hc),
            List.find?_cons_of_neg _ (by simpa [← hid] using hc)]
        have h' := ih tl₂ n₁ n₂ i htl
        rw [view_record_by_id_true, view_record_by_id_true] at h'
        exact h'

/-! ### Concrete instantiations -/

instance (r : Record) : Decidable (RecordValid r) :=
  inferInstanceAs (Decidable (r.name ≠ "" ∧ hasAt r.email = true ∧
    r.phone ≠ "" ∧ 1 ≤ r.age ∧ r.age ≤ 120))

instance (s : Store) : Decidable (DataInv s) :=
  inferInstanceAs (Decidable (∀ r ∈ s.rows, RecordValid r))

/-- A small concrete store used to instantiate the claim theorems. -/
def sampleStore : Store :=
  { rows := [{ id := 1, name := "Ann", email := "ann@x.com", phone := "111",
               age := 30, created_at := 5 },
             { id := 2, name := "Bob", email := "bob@y.com", phone := "222",
               age := 40, created_at := 6 }],
    nextId := 3 }

/-- The first row of `sampleStore`. -/
def annRecord : Record :=
  { id := 1, name := "Ann", email := "ann@x.com", phone := "111",
    age := 30, created_at := 5 }

theorem sampleStore_inv : StoreInv sampleStore :=
  ⟨List.chain'_cons.mpr ⟨by decide, List.chain'_singleton _⟩, by decide⟩

/-- A small concrete run used to instantiate the id-discipline theorem. -/
def sampleOps : List Op :=
  [Op.ins "Cy" "c@z.io" "333" 20 9 true,
   Op.del 1 true,
   Op.ins "Dee" "d@z.io" "444" 21 10 true]

/-- Witness for C1 at a concrete store and input. -/
theorem C1_witness :
    StoreInv sampleStore ∧ ("Jane Doe" : String) ≠ "" ∧
    hasAt "jane@x.com" = true ∧ ("555-1234" : String) ≠ "" ∧
    (1 ≤ (30 : Int) ∧ (30 : Int) ≤ 120) ∧
    ((insert_record sampleStore "Jane Doe" "jane@x.com" "555-1234" 30 7 true).1
        = true ∧
      ∃ r ∈ view_all_records
          (insert_record sampleStore "Jane Doe" "jane@x.com" "555-1234" 30 7
            true).2 true,
        r.name = "Jane Doe" ∧ r.email = "jane@x.com" ∧ r.phone = "555-1234" ∧
          r.age = 30 ∧ 7 ≤ r.created_at ∧
          ∀ r₀ ∈ sampleStore.rows, r₀.id ≠ r.id) :=
  ⟨sampleStore_inv, by decide, by decide, by decide, ⟨by decide, by decide⟩,
    C1_insert_then_listAll sampleStore "Jane Doe" "jane@x.com" "555-1234" 30 7
      sampleStore_inv (by decide) (by decide) (by decide)
      ⟨by decide, by decide⟩⟩

/-- Witness for C2 at a concrete store and submissions. -/
theorem C2_witness :
    DataInv sampleStore ∧
    (DataInv (add_submit sampleStore "Jane" "j@x.io" "99" 500 7 true) ∧
     DataInv (update_submit sampleStore 1 "Jane" "j@x.io" "99" 500 true)) :=
  ⟨by decide,
    C2_dataInv_preserved sampleStore (by decide) "Jane" "j@x.io" "99" 500 7 1
      true⟩

/-- Witness for C3: updating the record with id 1 in the sample store. -/
theorem C3_witness :
    StoreInv sampleStore ∧ annRecord ∈ sampleStore.rows ∧ annRecord.id = 1 ∧
    (view_record_by_id (update_record sampleStore 1 "Amy" "amy@x.com" "777"
        31 true).2 1 true = some ("Amy", "amy@x.com", "777", 31) ∧
      ∃ r' ∈ (update_record sampleStore 1 "Amy" "amy@x.com" "777" 31
          true).2.rows,
        r'.id = annRecord.id ∧ r'.created_at = annRecord.created_at ∧
          r'.name = "Amy" ∧ r'.email = "amy@x.com" ∧ r'.phone = "777" ∧
          r'.age = 31) :=
  ⟨sampleStore_inv, by decide, by decide,
    C3_update_then_get sampleStore 1 "Amy" "amy@x.com" "777" 31 annRecord
      sampleStore_inv (by decide) (by decide)⟩

/-- Witness for C4: id 99 is absent from the sample store. -/
theorem C4_witness :
    (∀ r ∈ sampleStore.rows, r.id ≠ 99) ∧
    (update_record sampleStore 99 "X" "x@y.z" "0" 9 true =
        (true, sampleStore) ∧
      delete_record sampleStore 99 true = (true, sampleStore)) :=
  ⟨by decide,
    C4_update_delete_absent sampleStore 99 "X" "x@y.z" "0" 9 (by decide)⟩

/-- Witness for C5 at the concrete sample store. -/
theorem C5_witness :
    StoreInv sampleStore ∧
    ((view_all_records sampleStore true).Pairwise (fun x y => y.id < x.id) ∧
      (view_all_records sampleStore true).Perm sampleStore.rows ∧
      (sampleStore.rows = [] → view_all_records sampleStore true = [])) :=
  ⟨sampleStore_inv, C5_listAll_ordering sampleStore sampleStore_inv⟩

/-- Witness for C7 at the concrete sample store. -/
theorem C7_witness :
    StoreInv sampleStore ∧
    (((∀ r ∈ sampleStore.rows, r.id ≠ 42) →
        view_record_by_id sampleStore 42 true = none) ∧
      (∀ r ∈ sampleStore.rows, r.id = 42 →
        view_record_by_id sampleStore 42 true =
          some (r.name, r.email, r.phone, r.age))) :=
  ⟨sampleStore_inv, C7_getById sampleStore 42 sampleStore_inv⟩

/-- Witness for C8: a concrete run with two inserts and a delete. -/
theorem C8_witness :
    StoreInv sampleStore ∧
    (((runOps sampleStore sampleOps).rows.map Record.id).Nodup ∧
      (assignedDuring sampleStore sampleOps).Nodup ∧
      (∀ a ∈ assignedDuring sampleStore sampleOps,
        ∀ r ∈ sampleStore.rows, r.id ≠ a) ∧
      (∀ i n e p a ok,
        (update_record sampleStore i n e p a ok).2.rows.map Record.id =
          sampleStore.rows.map Record.id)) :=
  ⟨sampleStore_inv, C8_id_discipline sampleStore sampleOps sampleStore_inv⟩

/-- Witness for C10: two stores differing only in `created_at` values. -/
theorem C10_witness :
    ([{ id := 1, name := "Ann", email := "ann@x.com", phone := "111",
        age := 30, created_at := 5 }] : List Record).map publicFields =
      ([{ id := 1, name := "Ann", email := "ann@x.com", phone := "111",
          age := 30, created_at := 999 }] : List Record).map publicFields ∧
    view_record_by_id
        { rows := [{ id := 1, name := "Ann", email := "ann@x.com",
                     phone := "111", age := 30, created_at := 5 }],
          nextId := 2 } 1 true =
      view_record_by_id
        { rows := [{ id := 1, name := "Ann", email := "ann@x.com",
                     phone := "111", age := 30, created_at := 999 }],
          nextId := 7 } 1 true :=
  ⟨by decide,
    C10_no_created_at
      [{ id := 1, name := "Ann", email := "ann@x.com", phone := "111",
         age := 30, created_at := 5 }]
      [{ id := 1, name := "Ann", email := "ann@x.com", phone := "111",
         age := 30, created_at := 999 }] 2 7 1 (by decide)⟩
